import Mathlib

/-!
Verification development for the LatinIME proximity/suggestion core.

The definitions below are a shallow embedding of
`native/jni/src/proximity_info.cpp` and of the constants declared in
`native/jni/src/unigram_dictionary.h`.  C++ `int` arithmetic is modelled by
`Int` (the quantities involved stay far from any overflow boundary), C++
integer division by `Int.tdiv` (truncation toward zero), and the raw
`int32_t` arrays by total functions from indices to `Int`.  The caller's
output array written by `calculateNearbyKeyCodes` is modelled by the list of
values written, in write order: every write of the source goes at index
`insertPos`, which always equals the number of values written so far, so the
written array content and the produced list coincide index by index.
-/

/-- Modelled from the spec: `defines.h` is not among the sources.  The spec
calls `KEYCODE_SPACE` the reserved "space" sentinel value; codes below it are
reserved/invalid.  Its value is the character code of a space. -/
def KEYCODE_SPACE : Int := 32

/-- Modelled from the spec: `defines.h` is not among the sources.  The spec's
"not a code" sentinel used to pad the candidate list. -/
def NOT_A_CODE : Int := -1

/-- Modelled from the spec: `defines.h` is not among the sources.  The spec's
"not found" sentinel for the code-to-key index. -/
def NOT_AN_INDEX : Int := -1

/-- Modelled from the spec: `defines.h` is not among the sources.  The
delimiter code inserted between grid-derived codes and the locale's
additional confusable codes; a reserved code distinct from the sentinel and
below `KEYCODE_SPACE`. -/
def ADDITIONAL_PROXIMITY_CHAR_DELIMITER_CODE : Int := 2

/-- State of one `ProximityInfo` instance after construction: the immutable
fields read by the member functions of `proximity_info.cpp`.  Arrays are
modelled as total functions; `additionalProximityChars` models the external
`AdditionalProximityChars` table already specialised to `mLocaleStr`, with
`getAdditionalCharsSize` being the length of the returned list. -/
structure ProximityInfo where
  MAX_PROXIMITY_CHARS_SIZE : Nat
  GRID_WIDTH : Int
  CELL_WIDTH : Int
  CELL_HEIGHT : Int
  MOST_COMMON_KEY_WIDTH_SQUARE : Int
  KEY_COUNT : Nat
  MAX_CHAR_CODE : Nat
  proximityCharsArray : Int → Int
  mKeyXCoordinates : Nat → Int
  mKeyYCoordinates : Nat → Int
  mKeyWidths : Nat → Int
  mKeyHeights : Nat → Int
  mCodeToKeyIndex : Nat → Int
  toBaseLowerCase : Int → Nat
  additionalProximityChars : Int → List Int

/-- Embeds `ProximityInfo::getStartIndexFromCoordinates` (proximity_info.cpp,
lines 94-97): `((y / CELL_HEIGHT) * GRID_WIDTH + (x / CELL_WIDTH)) *
MAX_PROXIMITY_CHARS_SIZE`, with C++ `/` on `int` being truncation toward
zero. -/
def ProximityInfo.getStartIndexFromCoordinates (pi : ProximityInfo) (x y : Int) : Int :=
  ((Int.tdiv y pi.CELL_HEIGHT) * pi.GRID_WIDTH + Int.tdiv x pi.CELL_WIDTH)
    * (pi.MAX_PROXIMITY_CHARS_SIZE : Int)

/-- Embeds `ProximityInfo::hasSpaceProximity` (proximity_info.cpp, lines
99-122): negative coordinates return `false` (after the debug-only
diagnostic); otherwise the `MAX_PROXIMITY_CHARS_SIZE` entries of the resolved
grid cell are scanned for `KEYCODE_SPACE`. -/
def ProximityInfo.hasSpaceProximity (pi : ProximityInfo) (x y : Int) : Bool :=
  if x < 0 ∨ y < 0 then
    false
  else
    let startIndex := pi.getStartIndexFromCoordinates x y
    (List.range pi.MAX_PROXIMITY_CHARS_SIZE).any fun i =>
      pi.proximityCharsArray (startIndex + (i : Int)) == KEYCODE_SPACE

/-- Whether the negative-coordinate guard of `hasSpaceProximity` emits its
diagnostic (the `AKLOGI` log and debug assertion, proximity_info.cpp lines
100-105): it fires exactly when a coordinate is negative and the `DEBUG_DICT`
build flag is set. -/
def ProximityInfo.hasSpaceProximityDiagnostic (_pi : ProximityInfo) (debugDict : Bool)
    (x y : Int) : Bool :=
  debugDict && decide (x < 0 ∨ y < 0)

/-- Embeds `ProximityInfo::squaredDistanceToEdge` (proximity_info.cpp, lines
124-135).  For `keyId < 0` the C++ is `return true;` in an `int`-returning
function, so the value produced is the integer 1. -/
def ProximityInfo.squaredDistanceToEdge (pi : ProximityInfo) (keyId x y : Int) : Int :=
  if keyId < 0 then 1
  else
    let left := pi.mKeyXCoordinates keyId.toNat
    let top := pi.mKeyYCoordinates keyId.toNat
    let right := left + pi.mKeyWidths keyId.toNat
    let bottom := top + pi.mKeyHeights keyId.toNat
    let edgeX := if x < left then left else if right < x then right else x
    let edgeY := if y < top then top else if bottom < y then bottom else y
    let dx := x - edgeX
    let dy := y - edgeY
    dx * dx + dy * dy

/-- Embeds `ProximityInfo::getKeyIndex` (proximity_info.cpp, lines 202-212):
no coordinate data or a case-folded code above `MAX_CHAR_CODE` yields
`NOT_AN_INDEX`, otherwise the reverse lookup table is consulted. -/
def ProximityInfo.getKeyIndex (pi : ProximityInfo) (c : Int) : Int :=
  if pi.KEY_COUNT = 0 then NOT_AN_INDEX
  else
    let baseLowerC := pi.toBaseLowerCase c
    if pi.MAX_CHAR_CODE < baseLowerC then NOT_AN_INDEX
    else pi.mCodeToKeyIndex baseLowerC

/-- Modelled from the spec: `isOnKey` is declared in `proximity_info.h`,
which is not among the sources.  Per the spec, the on-key test is containment
of the touch point in the key's rectangle, and a negative/invalid key id
always yields "on key". -/
def ProximityInfo.isOnKey (pi : ProximityInfo) (keyId x y : Int) : Bool :=
  if keyId < 0 then true
  else
    let left := pi.mKeyXCoordinates keyId.toNat
    let top := pi.mKeyYCoordinates keyId.toNat
    decide (left ≤ x ∧ x ≤ left + pi.mKeyWidths keyId.toNat ∧
      top ≤ y ∧ y ≤ top + pi.mKeyHeights keyId.toNat)

/-- Embeds the grid-cell loop of `ProximityInfo::calculateNearbyKeyCodes`
(proximity_info.cpp, lines 144-161).  `idxs` is the list of remaining loop
indices `i`, `acc` the values written so far (so `acc.length` is
`insertPos`).  The returned flag records whether the `insertPos >=
MAX_PROXIMITY_CHARS_SIZE` guard fired, i.e. whether the function returned
early. -/
def ProximityInfo.gridLoop (pi : ProximityInfo) (x y primaryKey startIndex : Int) :
    List Nat → List Int → List Int × Bool
  | [], acc => (acc, false)
  | i :: rest, acc =>
    let c := pi.proximityCharsArray (startIndex + (i : Int))
    if c < KEYCODE_SPACE ∨ c = primaryKey then
      pi.gridLoop x y primaryKey startIndex rest acc
    else
      let keyIndex := pi.getKeyIndex c
      let onKey := pi.isOnKey keyIndex x y
      let distance := pi.squaredDistanceToEdge keyIndex x y
      if onKey = true ∨ distance < pi.MOST_COMMON_KEY_WIDTH_SQUARE then
        let acc2 := acc ++ [c]
        if pi.MAX_PROXIMITY_CHARS_SIZE ≤ acc2.length then (acc2, true)
        else pi.gridLoop x y primaryKey startIndex rest acc2
      else
        pi.gridLoop x y primaryKey startIndex rest acc

/-- Embeds the additional-proximity loop of
`ProximityInfo::calculateNearbyKeyCodes` (proximity_info.cpp, lines 175-193):
each table code is appended unless the linear scan over the entries written
so far finds it; the flag again records an early return on reaching the
capacity. -/
def ProximityInfo.additionalLoop (pi : ProximityInfo) :
    List Int → List Int → List Int × Bool
  | [], acc => (acc, false)
  | ac :: rest, acc =>
    if ac ∈ acc then
      pi.additionalLoop rest acc
    else
      let acc2 := acc ++ [ac]
      if pi.MAX_PROXIMITY_CHARS_SIZE ≤ acc2.length then (acc2, true)
      else pi.additionalLoop rest acc2

/-- The writes performed by `ProximityInfo::calculateNearbyKeyCodes`
(proximity_info.cpp, lines 137-195) before the final sentinel-padding loop,
together with the early-return flag: the primary key, then, when the start
index is non-negative, the grid-cell loop, the delimiter (only when the
locale table is non-empty) and the additional-proximity loop. -/
def ProximityInfo.producedCodes (pi : ProximityInfo) (x y primaryKey : Int) :
    List Int × Bool :=
  let startIndex := pi.getStartIndexFromCoordinates x y
  if 0 ≤ startIndex then
    let g := pi.gridLoop x y primaryKey startIndex
      (List.range pi.MAX_PROXIMITY_CHARS_SIZE) [primaryKey]
    if g.2 then g
    else
      let additional := pi.additionalProximityChars primaryKey
      if 0 < additional.length then
        let acc2 := g.1 ++ [ADDITIONAL_PROXIMITY_CHAR_DELIMITER_CODE]
        if pi.MAX_PROXIMITY_CHARS_SIZE ≤ acc2.length then (acc2, true)
        else pi.additionalLoop additional acc2
      else (g.1, false)
  else ([primaryKey], false)

/-- Embeds `ProximityInfo::calculateNearbyKeyCodes` (proximity_info.cpp,
lines 137-200) as the final content of the output array: the produced codes,
followed, unless an early return fired, by the padding loop that fills the
remaining slots up to `MAX_PROXIMITY_CHARS_SIZE` with `NOT_A_CODE`. -/
def ProximityInfo.calculateNearbyKeyCodes (pi : ProximityInfo) (x y primaryKey : Int) :
    List Int :=
  let p := pi.producedCodes x y primaryKey
  if p.2 then p.1
  else p.1 ++ List.replicate (pi.MAX_PROXIMITY_CHARS_SIZE - p.1.length) NOT_A_CODE

/-- The grid-cell entries read at offsets `idxs` from `startIndex`. -/
def ProximityInfo.cellCodesAt (pi : ProximityInfo) (startIndex : Int)
    (idxs : List Nat) : List Int :=
  idxs.map fun (i : Nat) => pi.proximityCharsArray (startIndex + (i : Int))

/-- The codes stored in the grid cell resolved from `(x, y)`: the
`MAX_PROXIMITY_CHARS_SIZE` entries starting at
`getStartIndexFromCoordinates x y`, in cell order. -/
def ProximityInfo.cellCodes (pi : ProximityInfo) (x y : Int) : List Int :=
  pi.cellCodesAt (pi.getStartIndexFromCoordinates x y)
    (List.range pi.MAX_PROXIMITY_CHARS_SIZE)

/-- The admission test of the grid-cell loop, as a predicate on one code:
not below `KEYCODE_SPACE`, different from the primary code, and on the
resolved key or within the common-key-width-squared distance of it. -/
def ProximityInfo.admitsCode (pi : ProximityInfo) (x y primaryKey c : Int) : Bool :=
  !decide (c < KEYCODE_SPACE ∨ c = primaryKey) &&
    (pi.isOnKey (pi.getKeyIndex c) x y ||
      decide (pi.squaredDistanceToEdge (pi.getKeyIndex c) x y
        < pi.MOST_COMMON_KEY_WIDTH_SQUARE))

/-- The codes of the resolved grid cell that pass the admission test, in
cell order. -/
def ProximityInfo.admittedCodes (pi : ProximityInfo) (x y primaryKey : Int) : List Int :=
  (pi.cellCodes x y).filter fun c => pi.admitsCode x y primaryKey c

/-- Deduplicating append: each code of the second list is appended to the
accumulated list unless it already occurs there.  This is the effect of the
additional-proximity loop when no truncation occurs. -/
def dedupAppend (acc : List Int) : List Int → List Int
  | [] => acc
  | a :: rest => if a ∈ acc then dedupAppend acc rest else dedupAppend (acc ++ [a]) rest

/-- Clamp a value into the interval `[lo, hi]` the way the source's ternary
chains do. -/
def clampToRange (v lo hi : Int) : Int :=
  if v < lo then lo else if hi < v then hi else v

/-- Squared Euclidean distance from `(x, y)` to its clamp onto the rectangle
`[left, left + w] × [top, top + h]`, stated after the spec's description of
`squaredDistanceToEdge` for valid key ids. -/
def sqDistToRect (left top w h x y : Int) : Int :=
  let cx := clampToRange x left (left + w)
  let cy := clampToRange y top (top + h)
  (x - cx) * (x - cx) + (y - cy) * (y - cy)

namespace UnigramDictionary

/-- Embeds `UnigramDictionary::DEFAULT_MAX_ERRORS` (unigram_dictionary.h,
line 70). -/
def DEFAULT_MAX_ERRORS : Int := 2

/-- Embeds `UnigramDictionary::MAX_ERRORS_FOR_TWO_WORDS`
(unigram_dictionary.h, line 71). -/
def MAX_ERRORS_FOR_TWO_WORDS : Int := 1

end UnigramDictionary

/-- A small concrete keyboard used to evaluate the embedded functions: a
4-wide candidate list, a 2×N grid with 10×10 cells, a common key width of 10,
no key-coordinate data (`KEY_COUNT = 0`), one grid cell whose first entry is
the code 98 (the letter b), and an empty additional-proximity table. -/
def picA : ProximityInfo where
  MAX_PROXIMITY_CHARS_SIZE := 4
  GRID_WIDTH := 2
  CELL_WIDTH := 10
  CELL_HEIGHT := 10
  MOST_COMMON_KEY_WIDTH_SQUARE := 100
  KEY_COUNT := 0
  MAX_CHAR_CODE := 127
  proximityCharsArray := fun idx => if idx = 0 then 98 else 0
  mKeyXCoordinates := fun _ => 0
  mKeyYCoordinates := fun _ => 0
  mKeyWidths := fun _ => 10
  mKeyHeights := fun _ => 10
  mCodeToKeyIndex := fun _ => -1
  toBaseLowerCase := fun c => c.toNat
  additionalProximityChars := fun _ => []

/-- The concrete keyboard with a most-common-key-width square of 1. -/
def picThreshOne : ProximityInfo :=
  { picA with MOST_COMMON_KEY_WIDTH_SQUARE := 1 }

/-- The concrete keyboard with a candidate-list capacity of 1. -/
def picMaxOne : ProximityInfo :=
  { picA with MAX_PROXIMITY_CHARS_SIZE := 1 }

/-- The concrete keyboard with an empty grid cell. -/
def picEmptyCell : ProximityInfo :=
  { picA with proximityCharsArray := fun _ => 0 }

/-- The concrete keyboard with capacity 8 and one additional confusable
code (100) for every primary code. -/
def picAdditional : ProximityInfo :=
  { picA with MAX_PROXIMITY_CHARS_SIZE := 8,
              additionalProximityChars := fun _ => [100] }

theorem admitsCode_iff (pi : ProximityInfo) (x y primaryKey c : Int) :
    pi.admitsCode x y primaryKey c = true ↔
      ¬(c < KEYCODE_SPACE ∨ c = primaryKey) ∧
        (pi.isOnKey (pi.getKeyIndex c) x y = true ∨
          pi.squaredDistanceToEdge (pi.getKeyIndex c) x y
            < pi.MOST_COMMON_KEY_WIDTH_SQUARE) := by
  simp [ProximityInfo.admitsCode]

theorem gridLoop_cons (pi : ProximityInfo) (x y primaryKey startIndex : Int)
    (i : Nat) (rest : List Nat) (acc : List Int) :
    pi.gridLoop x y primaryKey startIndex (i :: rest) acc =
      if pi.admitsCode x y primaryKey
          (pi.proximityCharsArray (startIndex + (i : Int))) = true then
        if pi.MAX_PROXIMITY_CHARS_SIZE
            ≤ (acc ++ [pi.proximityCharsArray (startIndex + (i : Int))]).length then
          (acc ++ [pi.proximityCharsArray (startIndex + (i : Int))], true)
        else
          pi.gridLoop x y primaryKey startIndex rest
            (acc ++ [pi.proximityCharsArray (startIndex + (i : Int))])
      else pi.gridLoop x y primaryKey startIndex rest acc := by
  by_cases hskip : pi.proximityCharsArray (startIndex + (i : Int)) < KEYCODE_SPACE ∨
      pi.proximityCharsArray (startIndex + (i : Int)) = primaryKey
  · have hadm : pi.admitsCode x y primaryKey
        (pi.proximityCharsArray (startIndex + (i : Int))) = false := by
      simp [ProximityInfo.admitsCode, hskip]
    simp only [ProximityInfo.gridLoop, if_pos hskip, hadm, Bool.false_eq_true, if_false]
  · by_cases htest : pi.isOnKey
        (pi.getKeyIndex (pi.proximityCharsArray (startIndex + (i : Int)))) x y = true ∨
        pi.squaredDistanceToEdge
          (pi.getKeyIndex (pi.proximityCharsArray (startIndex + (i : Int)))) x y
          < pi.MOST_COMMON_KEY_WIDTH_SQUARE
    · have hadm : pi.admitsCode x y primaryKey
          (pi.proximityCharsArray (startIndex + (i : Int))) = true :=
        (admitsCode_iff pi x y primaryKey _).mpr ⟨hskip, htest⟩
      simp only [ProximityInfo.gridLoop, if_neg hskip, if_pos htest, hadm, if_true]
    · have hadm : pi.admitsCode x y primaryKey
          (pi.proximityCharsArray (startIndex + (i : Int))) = false := by
        cases hb : pi.admitsCode x y primaryKey
            (pi.proximityCharsArray (startIndex + (i : Int))) with
        | false => rfl
        | true => exact absurd ((admitsCode_iff pi x y primaryKey _).mp hb).2 htest
      simp only [ProximityInfo.gridLoop, if_neg hskip, if_neg htest, hadm,
        Bool.false_eq_true, if_false]

theorem cellCodesAt_cons (pi : ProximityInfo) (startIndex : Int) (i : Nat)
    (rest : List Nat) :
    pi.cellCodesAt startIndex (i :: rest)
      = pi.proximityCharsArray (startIndex + (i : Int)) :: pi.cellCodesAt startIndex rest :=
  rfl

theorem gridLoop_fst_eq (pi : ProximityInfo) (x y primaryKey startIndex : Int) :
    ∀ (idxs : List Nat) (acc : List Int),
      acc.length + ((pi.cellCodesAt startIndex idxs).filter
          (fun c => pi.admitsCode x y primaryKey c)).length
        ≤ pi.MAX_PROXIMITY_CHARS_SIZE →
      (pi.gridLoop x y primaryKey startIndex idxs acc).1
        = acc ++ ((pi.cellCodesAt startIndex idxs).filter
            (fun c => pi.admitsCode x y primaryKey c))
  | [], acc, _ => by simp [ProximityInfo.gridLoop, ProximityInfo.cellCodesAt]
  | i :: rest, acc, h => by
    rw [gridLoop_cons]
    by_cases hadm : pi.admitsCode x y primaryKey
        (pi.proximityCharsArray (startIndex + (i : Int))) = true
    · have hfe : ((pi.cellCodesAt startIndex (i :: rest)).filter
          (fun c => pi.admitsCode x y primaryKey c))
          = pi.proximityCharsArray (startIndex + (i : Int)) ::
            ((pi.cellCodesAt startIndex rest).filter
              (fun c => pi.admitsCode x y primaryKey c)) := by
        rw [cellCodesAt_cons, List.filter_cons, if_pos hadm]
      rw [if_pos hadm]
      rw [hfe] at h ⊢
      by_cases hfull : pi.MAX_PROXIMITY_CHARS_SIZE
          ≤ (acc ++ [pi.proximityCharsArray (startIndex + (i : Int))]).length
      · rw [if_pos hfull]
        have hrest : ((pi.cellCodesAt startIndex rest).filter
            (fun c => pi.admitsCode x y primaryKey c)).length = 0 := by
          simp only [List.length_cons, List.length_append, List.length_nil] at h hfull
          omega
        rw [List.length_eq_zero] at hrest
        rw [hrest]
      · rw [if_neg hfull]
        rw [gridLoop_fst_eq pi x y primaryKey startIndex rest
          (acc ++ [pi.proximityCharsArray (startIndex + (i : Int))])
          (by simp only [List.length_cons, List.length_append, List.length_nil] at h ⊢
              omega)]
        rw [List.append_assoc, List.singleton_append]
    · have hfe : ((pi.cellCodesAt startIndex (i :: rest)).filter
          (fun c => pi.admitsCode x y primaryKey c))
          = ((pi.cellCodesAt startIndex rest).filter
              (fun c => pi.admitsCode x y primaryKey c)) := by
        rw [cellCodesAt_cons, List.filter_cons, if_neg hadm]
      rw [if_neg hadm]
      rw [hfe] at h ⊢
      exact gridLoop_fst_eq pi x y primaryKey startIndex rest acc h

theorem gridLoop_eq_of_lt (pi : ProximityInfo) (x y primaryKey startIndex : Int) :
    ∀ (idxs : List Nat) (acc : List Int),
      acc.length + ((pi.cellCodesAt startIndex idxs).filter
          (fun c => pi.admitsCode x y primaryKey c)).length
        < pi.MAX_PROXIMITY_CHARS_SIZE →
      pi.gridLoop x y primaryKey startIndex idxs acc
        = (acc ++ ((pi.cellCodesAt startIndex idxs).filter
            (fun c => pi.admitsCode x y primaryKey c)), false)
  | [], acc, _ => by simp [ProximityInfo.gridLoop, ProximityInfo.cellCodesAt]
  | i :: rest, acc, h => by
    rw [gridLoop_cons]
    by_cases hadm : pi.admitsCode x y primaryKey
        (pi.proximityCharsArray (startIndex + (i : Int))) = true
    · have hfe : ((pi.cellCodesAt startIndex (i :: rest)).filter
          (fun c => pi.admitsCode x y primaryKey c))
          = pi.proximityCharsArray (startIndex + (i : Int)) ::
            ((pi.cellCodesAt startIndex rest).filter
              (fun c => pi.admitsCode x y primaryKey c)) := by
        rw [cellCodesAt_cons, List.filter_cons, if_pos hadm]
      rw [if_pos hadm]
      rw [hfe] at h ⊢
      have hfull : ¬ pi.MAX_PROXIMITY_CHARS_SIZE
          ≤ (acc ++ [pi.proximityCharsArray (startIndex + (i : Int))]).length := by
        simp only [List.length_cons, List.length_append, List.length_nil] at h ⊢
        omega
      rw [if_neg hfull]
      rw [gridLoop_eq_of_lt pi x y primaryKey startIndex rest
        (acc ++ [pi.proximityCharsArray (startIndex + (i : Int))])
        (by simp only [List.length_cons, List.length_append, List.length_nil] at h ⊢
            omega)]
      rw [List.append_assoc, List.singleton_append]
    · have hfe : ((pi.cellCodesAt startIndex (i :: rest)).filter
          (fun c => pi.admitsCode x y primaryKey c))
          = ((pi.cellCodesAt startIndex rest).filter
              (fun c => pi.admitsCode x y primaryKey c)) := by
        rw [cellCodesAt_cons, List.filter_cons, if_neg hadm]
      rw [if_neg hadm]
      rw [hfe] at h ⊢
      exact gridLoop_eq_of_lt pi x y primaryKey startIndex rest acc h

theorem gridLoop_length (pi : ProximityInfo) (x y primaryKey startIndex : Int) :
    ∀ (idxs : List Nat) (acc : List Int),
      acc.length < pi.MAX_PROXIMITY_CHARS_SIZE →
      ((pi.gridLoop x y primaryKey startIndex idxs acc).2 = true →
        (pi.gridLoop x y primaryKey startIndex idxs acc).1.length
          = pi.MAX_PROXIMITY_CHARS_SIZE) ∧
      ((pi.gridLoop x y primaryKey startIndex idxs acc).2 = false →
        (pi.gridLoop x y primaryKey startIndex idxs acc).1.length
          < pi.MAX_PROXIMITY_CHARS_SIZE)
  | [], acc, h => by
    refine ⟨fun hf => ?_, fun _ => ?_⟩
    · simp [ProximityInfo.gridLoop] at hf
    · simpa [ProximityInfo.gridLoop] using h
  | i :: rest, acc, h => by
    rw [gridLoop_cons]
    by_cases hadm : pi.admitsCode x y primaryKey
        (pi.proximityCharsArray (startIndex + (i : Int))) = true
    · rw [if_pos hadm]
      by_cases hfull : pi.MAX_PROXIMITY_CHARS_SIZE
          ≤ (acc ++ [pi.proximityCharsArray (startIndex + (i : Int))]).length
      · rw [if_pos hfull]
        refine ⟨fun _ => ?_, fun hf => by simp at hf⟩
        simp only [List.length_append, List.length_cons, List.length_nil] at hfull ⊢
        omega
      · rw [if_neg hfull]
        exact gridLoop_length pi x y primaryKey startIndex rest
          (acc ++ [pi.proximityCharsArray (startIndex + (i : Int))])
          (by omega)
    · rw [if_neg hadm]
      exact gridLoop_length pi x y primaryKey startIndex rest acc h

theorem additionalLoop_fst_append (pi : ProximityInfo) :
    ∀ (cs acc : List Int), ∃ rest, (pi.additionalLoop cs acc).1 = acc ++ rest
  | [], acc => ⟨[], by simp [ProximityInfo.additionalLoop]⟩
  | ac :: rest, acc => by
    by_cases hmem : ac ∈ acc
    · simp only [ProximityInfo.additionalLoop, if_pos hmem]
      exact additionalLoop_fst_append pi rest acc
    · simp only [ProximityInfo.additionalLoop, if_neg hmem]
      by_cases hfull : pi.MAX_PROXIMITY_CHARS_SIZE ≤ (acc ++ [ac]).length
      · rw [if_pos hfull]
        exact ⟨[ac], rfl⟩
      · rw [if_neg hfull]
        obtain ⟨r, hr⟩ := additionalLoop_fst_append pi rest (acc ++ [ac])
        exact ⟨[ac] ++ r, by rw [hr, List.append_assoc]⟩

theorem additionalLoop_length (pi : ProximityInfo) :
    ∀ (cs acc : List Int), acc.length < pi.MAX_PROXIMITY_CHARS_SIZE →
      ((pi.additionalLoop cs acc).2 = true →
        (pi.additionalLoop cs acc).1.length = pi.MAX_PROXIMITY_CHARS_SIZE) ∧
      ((pi.additionalLoop cs acc).2 = false →
        (pi.additionalLoop cs acc).1.length < pi.MAX_PROXIMITY_CHARS_SIZE)
  | [], acc, h => by
    refine ⟨fun hf => ?_, fun _ => ?_⟩
    · simp [ProximityInfo.additionalLoop] at hf
    · simpa [ProximityInfo.additionalLoop] using h
  | ac :: rest, acc, h => by
    by_cases hmem : ac ∈ acc
    · simp only [ProximityInfo.additionalLoop, if_pos hmem]
      exact additionalLoop_length pi rest acc h
    · simp only [ProximityInfo.additionalLoop, if_neg hmem]
      by_cases hfull : pi.MAX_PROXIMITY_CHARS_SIZE ≤ (acc ++ [ac]).length
      · rw [if_pos hfull]
        refine ⟨fun _ => ?_, fun hf => by simp at hf⟩
        simp only [List.length_append, List.length_cons, List.length_nil] at hfull ⊢
        omega
      · rw [if_neg hfull]
        exact additionalLoop_length pi rest (acc ++ [ac]) (by omega)

theorem dedupAppend_length_le : ∀ (cs acc : List Int),
    acc.length ≤ (dedupAppend acc cs).length
  | [], acc => le_refl _
  | a :: rest, acc => by
    by_cases hmem : a ∈ acc
    · simp only [dedupAppend, if_pos hmem]
      exact dedupAppend_length_le rest acc
    · simp only [dedupAppend, if_neg hmem]
      calc acc.length ≤ (acc ++ [a]).length := by simp
        _ ≤ (dedupAppend (acc ++ [a]) rest).length := dedupAppend_length_le rest _

theorem additionalLoop_eq_dedup (pi : ProximityInfo) :
    ∀ (cs acc : List Int),
      (dedupAppend acc cs).length < pi.MAX_PROXIMITY_CHARS_SIZE →
      pi.additionalLoop cs acc = (dedupAppend acc cs, false)
  | [], acc, _ => by simp [ProximityInfo.additionalLoop, dedupAppend]
  | ac :: rest, acc, h => by
    by_cases hmem : ac ∈ acc
    · simp only [ProximityInfo.additionalLoop, dedupAppend, if_pos hmem] at h ⊢
      exact additionalLoop_eq_dedup pi rest acc h
    · simp only [ProximityInfo.additionalLoop, dedupAppend, if_neg hmem] at h ⊢
      have hfull : ¬ pi.MAX_PROXIMITY_CHARS_SIZE ≤ (acc ++ [ac]).length := by
        have := dedupAppend_length_le rest (acc ++ [ac])
        omega
      rw [if_neg hfull]
      exact additionalLoop_eq_dedup pi rest (acc ++ [ac]) h

theorem calculateNearbyKeyCodes_eq (pi : ProximityInfo) (x y primaryKey : Int) :
    pi.calculateNearbyKeyCodes x y primaryKey
      = if (pi.producedCodes x y primaryKey).2 then (pi.producedCodes x y primaryKey).1
        else (pi.producedCodes x y primaryKey).1 ++
          List.replicate
            (pi.MAX_PROXIMITY_CHARS_SIZE - (pi.producedCodes x y primaryKey).1.length)
            NOT_A_CODE :=
  rfl

theorem producedCodes_of_neg (pi : ProximityInfo) (x y primaryKey : Int)
    (h : pi.getStartIndexFromCoordinates x y < 0) :
    pi.producedCodes x y primaryKey = ([primaryKey], false) := by
  simp only [ProximityInfo.producedCodes]
  rw [if_neg (not_le.mpr h)]

theorem calc_fst_append (pi : ProximityInfo) (x y primaryKey : Int) :
    ∃ r, pi.calculateNearbyKeyCodes x y primaryKey
      = (pi.producedCodes x y primaryKey).1 ++ r := by
  rw [calculateNearbyKeyCodes_eq]
  by_cases hp : (pi.producedCodes x y primaryKey).2 = true
  · exact ⟨[], by rw [if_pos hp, List.append_nil]⟩
  · exact ⟨_, by rw [if_neg hp]⟩

theorem producedCodes_fst_grid (pi : ProximityInfo) (x y primaryKey : Int)
    (hsi : 0 ≤ pi.getStartIndexFromCoordinates x y) :
    ∃ rest, (pi.producedCodes x y primaryKey).1
      = (pi.gridLoop x y primaryKey (pi.getStartIndexFromCoordinates x y)
          (List.range pi.MAX_PROXIMITY_CHARS_SIZE) [primaryKey]).1 ++ rest := by
  simp only [ProximityInfo.producedCodes]
  rw [if_pos hsi]
  by_cases hg2 : (pi.gridLoop x y primaryKey (pi.getStartIndexFromCoordinates x y)
      (List.range pi.MAX_PROXIMITY_CHARS_SIZE) [primaryKey]).2 = true
  · rw [if_pos hg2]
    exact ⟨[], by rw [List.append_nil]⟩
  · rw [if_neg hg2]
    by_cases hadd : 0 < (pi.additionalProximityChars primaryKey).length
    · rw [if_pos hadd]
      by_cases hfull : pi.MAX_PROXIMITY_CHARS_SIZE
          ≤ ((pi.gridLoop x y primaryKey (pi.getStartIndexFromCoordinates x y)
              (List.range pi.MAX_PROXIMITY_CHARS_SIZE) [primaryKey]).1
            ++ [ADDITIONAL_PROXIMITY_CHAR_DELIMITER_CODE]).length
      · rw [if_pos hfull]
        exact ⟨[ADDITIONAL_PROXIMITY_CHAR_DELIMITER_CODE], rfl⟩
      · rw [if_neg hfull]
        obtain ⟨r, hr⟩ := additionalLoop_fst_append pi
          (pi.additionalProximityChars primaryKey)
          ((pi.gridLoop x y primaryKey (pi.getStartIndexFromCoordinates x y)
              (List.range pi.MAX_PROXIMITY_CHARS_SIZE) [primaryKey]).1
            ++ [ADDITIONAL_PROXIMITY_CHAR_DELIMITER_CODE])
        exact ⟨[ADDITIONAL_PROXIMITY_CHAR_DELIMITER_CODE] ++ r,
          by rw [hr, List.append_assoc]⟩
    · rw [if_neg hadd]
      exact ⟨[], by rw [List.append_nil]⟩

theorem producedCodes_length (pi : ProximityInfo) (x y primaryKey : Int)
    (h2 : 2 ≤ pi.MAX_PROXIMITY_CHARS_SIZE) :
    ((pi.producedCodes x y primaryKey).2 = true →
      (pi.producedCodes x y primaryKey).1.length = pi.MAX_PROXIMITY_CHARS_SIZE) ∧
    ((pi.producedCodes x y primaryKey).2 = false →
      (pi.producedCodes x y primaryKey).1.length < pi.MAX_PROXIMITY_CHARS_SIZE) := by
  simp only [ProximityInfo.producedCodes]
  by_cases hsi : 0 ≤ pi.getStartIndexFromCoordinates x y
  · rw [if_pos hsi]
    have hg := gridLoop_length pi x y primaryKey (pi.getStartIndexFromCoordinates x y)
      (List.range pi.MAX_PROXIMITY_CHARS_SIZE) [primaryKey]
      (by simp only [List.length_cons, List.length_nil]; omega)
    by_cases hg2 : (pi.gridLoop x y primaryKey (pi.getStartIndexFromCoordinates x y)
        (List.range pi.MAX_PROXIMITY_CHARS_SIZE) [primaryKey]).2 = true
    · rw [if_pos hg2]
      exact ⟨fun _ => hg.1 hg2, fun hf => absurd hg2 (by rw [hf]; simp)⟩
    · rw [if_neg hg2]
      have hglen := hg.2 (Bool.not_eq_true _ ▸ hg2)
      by_cases hadd : 0 < (pi.additionalProximityChars primaryKey).length
      · rw [if_pos hadd]
        by_cases hfull : pi.MAX_PROXIMITY_CHARS_SIZE
            ≤ ((pi.gridLoop x y primaryKey (pi.getStartIndexFromCoordinates x y)
                (List.range pi.MAX_PROXIMITY_CHARS_SIZE) [primaryKey]).1
              ++ [ADDITIONAL_PROXIMITY_CHAR_DELIMITER_CODE]).length
        · rw [if_pos hfull]
          refine ⟨fun _ => ?_, fun hf => by simp at hf⟩
          simp only [List.length_append, List.length_cons, List.length_nil] at hfull ⊢
          omega
        · rw [if_neg hfull]
          exact additionalLoop_length pi (pi.additionalProximityChars primaryKey) _
            (by omega)
      · rw [if_neg hadd]
        exact ⟨fun hf => by simp at hf, fun _ => hglen⟩
  · rw [if_neg hsi]
    exact ⟨fun hf => by simp at hf, fun _ => by
      simp only [List.length_cons, List.length_nil]; omega⟩

theorem startIndex_nonneg_of_tdiv (pi : ProximityInfo) (x y : Int)
    (hx : 0 ≤ Int.tdiv x pi.CELL_WIDTH) (hy : 0 ≤ Int.tdiv y pi.CELL_HEIGHT)
    (hgw : 0 ≤ pi.GRID_WIDTH) :
    0 ≤ pi.getStartIndexFromCoordinates x y := by
  unfold ProximityInfo.getStartIndexFromCoordinates
  have h1 : 0 ≤ Int.tdiv y pi.CELL_HEIGHT * pi.GRID_WIDTH := mul_nonneg hy hgw
  have h2 : (0 : Int) ≤ (pi.MAX_PROXIMITY_CHARS_SIZE : Int) := Int.natCast_nonneg _
  exact mul_nonneg (by omega) h2

theorem tdiv_small_neg_eq_zero (a d : Int) (_hd : 0 < d) (h1 : -d < a) (h2 : a < 0) :
    Int.tdiv a d = 0 := by
  have ha : a = -(-a) := by omega
  rw [ha, Int.neg_tdiv, Int.tdiv_eq_zero_of_lt (by omega) (by omega), neg_zero]

theorem sumSquares_eq_zero_iff (a b : Int) : a * a + b * b = 0 ↔ a = 0 ∧ b = 0 := by
  constructor
  · intro h0
    have hA : a * a = 0 := by
      have h1 := mul_self_nonneg a
      have h2 := mul_self_nonneg b
      linarith
    have hB : b * b = 0 := by
      have h1 := mul_self_nonneg a
      have h2 := mul_self_nonneg b
      linarith
    exact ⟨mul_self_eq_zero.mp hA, mul_self_eq_zero.mp hB⟩
  · rintro ⟨ha, hb⟩
    rw [ha, hb]
    ring

theorem sub_clamp_eq_zero_iff (v lo hi : Int) :
    v - clampToRange v lo hi = 0 ↔ lo ≤ v ∧ v ≤ hi := by
  unfold clampToRange
  split_ifs <;> omega

theorem admittedCodes_eq (pi : ProximityInfo) (x y primaryKey : Int) :
    pi.admittedCodes x y primaryKey
      = (pi.cellCodesAt (pi.getStartIndexFromCoordinates x y)
          (List.range pi.MAX_PROXIMITY_CHARS_SIZE)).filter
          (fun c => pi.admitsCode x y primaryKey c) :=
  rfl

theorem calc_take_admitted (pi : ProximityInfo) (x y primaryKey : Int)
    (hsi : 0 ≤ pi.getStartIndexFromCoordinates x y)
    (hroom : 1 + (pi.admittedCodes x y primaryKey).length
      ≤ pi.MAX_PROXIMITY_CHARS_SIZE) :
    (pi.calculateNearbyKeyCodes x y primaryKey).take
        (1 + (pi.admittedCodes x y primaryKey).length)
      = primaryKey :: pi.admittedCodes x y primaryKey := by
  have hlen : ([primaryKey] : List Int).length
      + ((pi.cellCodesAt (pi.getStartIndexFromCoordinates x y)
          (List.range pi.MAX_PROXIMITY_CHARS_SIZE)).filter
          (fun c => pi.admitsCode x y primaryKey c)).length
      ≤ pi.MAX_PROXIMITY_CHARS_SIZE := by
    rw [← admittedCodes_eq]
    simpa using hroom
  have hgrid := gridLoop_fst_eq pi x y primaryKey (pi.getStartIndexFromCoordinates x y)
    (List.range pi.MAX_PROXIMITY_CHARS_SIZE) [primaryKey] hlen
  obtain ⟨r1, hr1⟩ := producedCodes_fst_grid pi x y primaryKey hsi
  obtain ⟨r2, hr2⟩ := calc_fst_append pi x y primaryKey
  rw [hr2, hr1, hgrid, ← admittedCodes_eq]
  rw [List.append_assoc]
  rw [List.take_left' (by simp [Nat.add_comm])]
  exact List.singleton_append

/-- C9: the search engine's default error budget is 2 correction operations
for a single-word match and 1 for a two-word split, matching the values in
`unigram_dictionary.h`. -/
theorem errorBudgets_eq :
    UnigramDictionary.DEFAULT_MAX_ERRORS = 2 ∧
    UnigramDictionary.MAX_ERRORS_FOR_TWO_WORDS = 1 :=
  ⟨rfl, rfl⟩

/-- C5: `hasSpaceProximity x y` is true exactly when both coordinates are
non-negative and the resolved grid cell's `MAX_PROXIMITY_CHARS_SIZE` entries
contain the space code; in particular `hasSpaceProximity (-1) 5` is false,
and under the debug flag the negative-coordinate diagnostic is emitted for
that call (being a total Lean function, no exception is possible). -/
theorem hasSpaceProximity_spec (pi : ProximityInfo) (x y : Int) :
    (pi.hasSpaceProximity x y = true ↔
      0 ≤ x ∧ 0 ≤ y ∧ ∃ i, i < pi.MAX_PROXIMITY_CHARS_SIZE ∧
        pi.proximityCharsArray (pi.getStartIndexFromCoordinates x y + (i : Int))
          = KEYCODE_SPACE) ∧
    pi.hasSpaceProximity (-1) 5 = false ∧
    pi.hasSpaceProximityDiagnostic true (-1) 5 = true := by
  refine ⟨?_, ?_, ?_⟩
  · unfold ProximityInfo.hasSpaceProximity
    by_cases h : x < 0 ∨ y < 0
    · rw [if_pos h]
      simp only [Bool.false_eq_true, false_iff]
      rintro ⟨hx, hy, -⟩
      omega
    · rw [if_neg h]
      push_neg at h
      simp only [List.any_eq_true, List.mem_range, beq_iff_eq]
      constructor
      · rintro ⟨i, hi, hEq⟩
        exact ⟨h.1, h.2, i, hi, hEq⟩
      · rintro ⟨-, -, i, hi, hEq⟩
        exact ⟨i, hi, hEq⟩
  · unfold ProximityInfo.hasSpaceProximity
    rw [if_pos (by norm_num)]
  · unfold ProximityInfo.hasSpaceProximityDiagnostic
    simp

/-- C2 counterexample: on a keyboard whose most common key width is 1, a
negative key id makes `squaredDistanceToEdge` return the literal distance 1
(the int value of the C++ `return true;`), and that value does not pass the
`MOST_COMMON_KEY_WIDTH_SQUARE` threshold test, so the returned value does not
admit the code regardless of the threshold as the claim states. -/
theorem squaredDistanceToEdge_negative_id_literal :
    picThreshOne.squaredDistanceToEdge (-1) 5 5 = 1 ∧
    ¬ (picThreshOne.squaredDistanceToEdge (-1) 5 5
        < picThreshOne.MOST_COMMON_KEY_WIDTH_SQUARE) := by
  decide

/-- C2 amended: for every negative key id, `squaredDistanceToEdge` returns
the constant 1 (the int coercion of the C++ `return true;`), which passes the
threshold test only when `MOST_COMMON_KEY_WIDTH_SQUARE` exceeds 1;
unconditional admission of such codes comes from the on-key test instead,
which always answers true for a negative key id. -/
theorem squaredDistanceToEdge_negative_id (pi : ProximityInfo) (keyId x y : Int)
    (h : keyId < 0) :
    pi.squaredDistanceToEdge keyId x y = 1 ∧
    pi.isOnKey keyId x y = true ∧
    (1 < pi.MOST_COMMON_KEY_WIDTH_SQUARE →
      pi.squaredDistanceToEdge keyId x y < pi.MOST_COMMON_KEY_WIDTH_SQUARE) := by
  refine ⟨?_, ?_, ?_⟩
  · unfold ProximityInfo.squaredDistanceToEdge
    rw [if_pos h]
  · unfold ProximityInfo.isOnKey
    rw [if_pos h]
  · unfold ProximityInfo.squaredDistanceToEdge
    rw [if_pos h]
    exact fun ht => ht

theorem squaredDistanceToEdge_negative_id_witness :
    (-1 : Int) < 0 ∧
    (picThreshOne.squaredDistanceToEdge (-1) 5 5 = 1 ∧
      picThreshOne.isOnKey (-1) 5 5 = true ∧
      (1 < picThreshOne.MOST_COMMON_KEY_WIDTH_SQUARE →
        picThreshOne.squaredDistanceToEdge (-1) 5 5
          < picThreshOne.MOST_COMMON_KEY_WIDTH_SQUARE)) :=
  ⟨by decide, squaredDistanceToEdge_negative_id picThreshOne (-1) 5 5 (by decide)⟩

/-- C3 counterexample: on the concrete keyboard, key 0 has rectangle
(0,0,10,10); the point (5, 20) lies inside that rectangle in the x axis, yet
`squaredDistanceToEdge` returns 100, not 0 — so "returns 0 if the point lies
inside the rectangle in either axis" fails; 0 requires both axes. -/
theorem squaredDistanceToEdge_one_axis_not_zero :
    picA.squaredDistanceToEdge 0 5 20 = 100 ∧
    (picA.mKeyXCoordinates 0 ≤ 5 ∧
      (5 : Int) ≤ picA.mKeyXCoordinates 0 + picA.mKeyWidths 0) ∧
    picA.squaredDistanceToEdge 0 5 20 ≠ 0 := by
  decide

/-- C3 amended: for every valid (non-negative) key id,
`squaredDistanceToEdge` returns the squared Euclidean distance from the point
to its clamp onto the key rectangle, and it returns 0 exactly when the point
lies inside the rectangle in both axes (hence 0 for every point strictly
inside). -/
theorem squaredDistanceToEdge_valid_id (pi : ProximityInfo) (keyId x y : Int)
    (h : 0 ≤ keyId) :
    pi.squaredDistanceToEdge keyId x y
      = sqDistToRect (pi.mKeyXCoordinates keyId.toNat) (pi.mKeyYCoordinates keyId.toNat)
          (pi.mKeyWidths keyId.toNat) (pi.mKeyHeights keyId.toNat) x y ∧
    (pi.squaredDistanceToEdge keyId x y = 0 ↔
      (pi.mKeyXCoordinates keyId.toNat ≤ x ∧
        x ≤ pi.mKeyXCoordinates keyId.toNat + pi.mKeyWidths keyId.toNat) ∧
      (pi.mKeyYCoordinates keyId.toNat ≤ y ∧
        y ≤ pi.mKeyYCoordinates keyId.toNat + pi.mKeyHeights keyId.toNat)) := by
  have hn : ¬ keyId < 0 := not_lt.mpr h
  have hEq : pi.squaredDistanceToEdge keyId x y
      = sqDistToRect (pi.mKeyXCoordinates keyId.toNat) (pi.mKeyYCoordinates keyId.toNat)
          (pi.mKeyWidths keyId.toNat) (pi.mKeyHeights keyId.toNat) x y := by
    simp only [ProximityInfo.squaredDistanceToEdge, sqDistToRect, clampToRange]
    rw [if_neg hn]
  refine ⟨hEq, ?_⟩
  rw [hEq]
  unfold sqDistToRect
  rw [sumSquares_eq_zero_iff, sub_clamp_eq_zero_iff, sub_clamp_eq_zero_iff]

theorem squaredDistanceToEdge_valid_id_witness :
    (0 : Int) ≤ 0 ∧
    (picA.squaredDistanceToEdge 0 5 5
        = sqDistToRect (picA.mKeyXCoordinates (Int.toNat 0))
            (picA.mKeyYCoordinates (Int.toNat 0)) (picA.mKeyWidths (Int.toNat 0))
            (picA.mKeyHeights (Int.toNat 0)) 5 5 ∧
      (picA.squaredDistanceToEdge 0 5 5 = 0 ↔
        (picA.mKeyXCoordinates (Int.toNat 0) ≤ 5 ∧
          (5 : Int) ≤ picA.mKeyXCoordinates (Int.toNat 0) + picA.mKeyWidths (Int.toNat 0)) ∧
        (picA.mKeyYCoordinates (Int.toNat 0) ≤ 5 ∧
          (5 : Int) ≤ picA.mKeyYCoordinates (Int.toNat 0)
            + picA.mKeyHeights (Int.toNat 0)))) :=
  ⟨by decide, squaredDistanceToEdge_valid_id picA 0 5 5 (by decide)⟩

/-- C1: for a touch point with non-negative coordinates (and the
construction invariants that cell dimensions are positive and the grid width
non-negative), as long as the candidate list does not overflow, the output
starts with the primary code at index 0 followed exactly by those codes of
the resolved grid cell, in cell order, that are not below the space sentinel,
differ from the primary code, and are on the resolved key or within the
common-key-width-squared distance of it — `admitsCode` is precisely that
test and `admittedCodes` the filter of the cell by it. -/
theorem calculateNearbyKeyCodes_grid_admission (pi : ProximityInfo)
    (x y primaryKey : Int) (hx : 0 ≤ x) (hy : 0 ≤ y)
    (hcw : 0 < pi.CELL_WIDTH) (hch : 0 < pi.CELL_HEIGHT) (hgw : 0 ≤ pi.GRID_WIDTH)
    (hroom : 1 + (pi.admittedCodes x y primaryKey).length
      ≤ pi.MAX_PROXIMITY_CHARS_SIZE) :
    (pi.calculateNearbyKeyCodes x y primaryKey).take
        (1 + (pi.admittedCodes x y primaryKey).length)
      = primaryKey :: pi.admittedCodes x y primaryKey :=
  calc_take_admitted pi x y primaryKey
    (startIndex_nonneg_of_tdiv pi x y (Int.tdiv_nonneg hx hcw.le)
      (Int.tdiv_nonneg hy hch.le) hgw) hroom

theorem calculateNearbyKeyCodes_grid_admission_witness :
    (0 : Int) ≤ 5 ∧ (0 : Int) ≤ 5 ∧ 0 < picA.CELL_WIDTH ∧ 0 < picA.CELL_HEIGHT ∧
    0 ≤ picA.GRID_WIDTH ∧
    1 + (picA.admittedCodes 5 5 97).length ≤ picA.MAX_PROXIMITY_CHARS_SIZE ∧
    (picA.calculateNearbyKeyCodes 5 5 97).take (1 + (picA.admittedCodes 5 5 97).length)
      = 97 :: picA.admittedCodes 5 5 97 :=
  ⟨by decide, by decide, by decide, by decide, by decide, by decide,
    calculateNearbyKeyCodes_grid_admission picA 5 5 97 (by decide) (by decide)
      (by decide) (by decide) (by decide) (by decide)⟩

/-- C4 counterexample: the touch point (-1, 0) has a negative x coordinate,
yet `calculateNearbyKeyCodes` neither reports anything nor returns an empty
result: truncating division maps x = -1 to grid column 0 and the grid code 98
stored there is returned as a candidate. -/
theorem calculateNearbyKeyCodes_negative_not_rejected :
    picA.calculateNearbyKeyCodes (-1) 0 97 = [97, 98, -1, -1] ∧
    (98 : Int) ∈ picA.calculateNearbyKeyCodes (-1) 0 97 := by
  decide

/-- C4 amended: `calculateNearbyKeyCodes` performs no coordinate validation
and emits no diagnostic; it degrades to the primary code followed by sentinel
padding exactly in the case that the computed start index is negative, which
small negative coordinates do not trigger. -/
theorem calculateNearbyKeyCodes_of_neg_startIndex (pi : ProximityInfo)
    (x y primaryKey : Int) (h : pi.getStartIndexFromCoordinates x y < 0) :
    pi.calculateNearbyKeyCodes x y primaryKey
      = primaryKey :: List.replicate (pi.MAX_PROXIMITY_CHARS_SIZE - 1) NOT_A_CODE := by
  rw [calculateNearbyKeyCodes_eq, producedCodes_of_neg pi x y primaryKey h]
  simp

theorem calculateNearbyKeyCodes_of_neg_startIndex_witness :
    picA.getStartIndexFromCoordinates (-100) 0 < 0 ∧
    picA.calculateNearbyKeyCodes (-100) 0 97
      = 97 :: List.replicate (picA.MAX_PROXIMITY_CHARS_SIZE - 1) NOT_A_CODE :=
  ⟨by decide, calculateNearbyKeyCodes_of_neg_startIndex picA (-100) 0 97 (by decide)⟩

/-- C6 counterexample: with a capacity of 1 the insertion of the primary
code is never capacity-checked, so one admitted grid code is written at index
1 ≥ MAX_PROXIMITY_CHARS_SIZE and the output holds two entries — the claimed
bound on write indices fails. -/
theorem calculateNearbyKeyCodes_overflow_at_one :
    (picMaxOne.calculateNearbyKeyCodes 0 0 97).length = 2 ∧
    picMaxOne.MAX_PROXIMITY_CHARS_SIZE = 1 ∧
    picMaxOne.calculateNearbyKeyCodes 0 0 97 = [97, 98] := by
  decide

/-- C6 amended: provided the capacity is at least 2 (the primary insertion
is the one never checked), every write index stays below
`MAX_PROXIMITY_CHARS_SIZE`: the codes produced before padding never exceed
the capacity, an append reaching the capacity stops resolution early, and the
remaining slots are filled with the `NOT_A_CODE` sentinel so the output has
exactly `MAX_PROXIMITY_CHARS_SIZE` entries. -/
theorem calculateNearbyKeyCodes_capacity (pi : ProximityInfo)
    (x y primaryKey : Int) (h2 : 2 ≤ pi.MAX_PROXIMITY_CHARS_SIZE) :
    (pi.calculateNearbyKeyCodes x y primaryKey).length = pi.MAX_PROXIMITY_CHARS_SIZE ∧
    (pi.producedCodes x y primaryKey).1.length ≤ pi.MAX_PROXIMITY_CHARS_SIZE ∧
    pi.calculateNearbyKeyCodes x y primaryKey
      = (pi.producedCodes x y primaryKey).1 ++
        List.replicate
          (pi.MAX_PROXIMITY_CHARS_SIZE - (pi.producedCodes x y primaryKey).1.length)
          NOT_A_CODE := by
  obtain ⟨ht, hf⟩ := producedCodes_length pi x y primaryKey h2
  by_cases hp : (pi.producedCodes x y primaryKey).2 = true
  · have hlen := ht hp
    refine ⟨?_, le_of_eq hlen, ?_⟩
    · rw [calculateNearbyKeyCodes_eq, if_pos hp, hlen]
    · rw [calculateNearbyKeyCodes_eq, if_pos hp, hlen, Nat.sub_self]
      simp
  · have hlen := hf (Bool.not_eq_true _ ▸ hp)
    refine ⟨?_, hlen.le, ?_⟩
    · rw [calculateNearbyKeyCodes_eq, if_neg hp]
      simp only [List.length_append, List.length_replicate]
      omega
    · rw [calculateNearbyKeyCodes_eq, if_neg hp]

theorem calculateNearbyKeyCodes_capacity_witness :
    2 ≤ picA.MAX_PROXIMITY_CHARS_SIZE ∧
    ((picA.calculateNearbyKeyCodes 0 0 97).length = picA.MAX_PROXIMITY_CHARS_SIZE ∧
     (picA.producedCodes 0 0 97).1.length ≤ picA.MAX_PROXIMITY_CHARS_SIZE ∧
     picA.calculateNearbyKeyCodes 0 0 97
       = (picA.producedCodes 0 0 97).1 ++
         List.replicate
           (picA.MAX_PROXIMITY_CHARS_SIZE - (picA.producedCodes 0 0 97).1.length)
           NOT_A_CODE) :=
  ⟨by decide, calculateNearbyKeyCodes_capacity picA 0 0 97 (by decide)⟩

/-- C7: the additional-proximity loop appends a table code only when the
linear scan over everything written so far does not find it, so a code that
is already in the list is never duplicated: its occurrence count is unchanged
by the whole loop. -/
theorem additionalLoop_no_duplication (pi : ProximityInfo) :
    ∀ (cs acc : List Int) (c : Int), c ∈ acc →
      List.count c (pi.additionalLoop cs acc).1 = List.count c acc
  | [], acc, c, _ => by simp [ProximityInfo.additionalLoop]
  | ac :: rest, acc, c, hc => by
    by_cases hmem : ac ∈ acc
    · simp only [ProximityInfo.additionalLoop, if_pos hmem]
      exact additionalLoop_no_duplication pi rest acc c hc
    · simp only [ProximityInfo.additionalLoop, if_neg hmem]
      have hne : ac ≠ c := fun hEq => hmem (hEq ▸ hc)
      by_cases hfull : pi.MAX_PROXIMITY_CHARS_SIZE ≤ (acc ++ [ac]).length
      · rw [if_pos hfull]
        simp [List.count_append, List.count_cons, hne]
      · rw [if_neg hfull]
        rw [additionalLoop_no_duplication pi rest (acc ++ [ac]) c
          (by simp [hc])]
        simp [List.count_append, List.count_cons, hne]

theorem additionalLoop_no_duplication_witness :
    (97 : Int) ∈ [(97 : Int)] ∧
    List.count (97 : Int) (picA.additionalLoop [97, 98] [97]).1
      = List.count (97 : Int) [(97 : Int)] :=
  ⟨by decide, additionalLoop_no_duplication picA [97, 98] [97] 97 (by decide)⟩

/-- C8 counterexample: when the locale's additional-confusable table is
empty for the primary code, no delimiter is appended: the output is the
primary code plus sentinel padding, and the delimiter code appears nowhere in
it, contradicting the claimed unconditional delimiter. -/
theorem calculateNearbyKeyCodes_no_delimiter :
    picEmptyCell.calculateNearbyKeyCodes 0 0 97 = [97, -1, -1, -1] ∧
    ¬ ADDITIONAL_PROXIMITY_CHAR_DELIMITER_CODE
        ∈ picEmptyCell.calculateNearbyKeyCodes 0 0 97 := by
  decide

/-- C8 amended: for non-negative coordinates (with positive cell dimensions
and non-negative grid width), when the locale table for the primary code is
non-empty and the list does not overflow, the output has exactly the shape
primary code, admitted grid codes, delimiter, deduplicated additional codes,
sentinel padding; when the table is empty, the delimiter and additional
section are omitted (see the counterexample). -/
theorem calculateNearbyKeyCodes_shape (pi : ProximityInfo) (x y primaryKey : Int)
    (hx : 0 ≤ x) (hy : 0 ≤ y) (hcw : 0 < pi.CELL_WIDTH) (hch : 0 < pi.CELL_HEIGHT)
    (hgw : 0 ≤ pi.GRID_WIDTH) (hadd : pi.additionalProximityChars primaryKey ≠ [])
    (hroom : (dedupAppend
        ((primaryKey :: pi.admittedCodes x y primaryKey)
          ++ [ADDITIONAL_PROXIMITY_CHAR_DELIMITER_CODE])
        (pi.additionalProximityChars primaryKey)).length
      < pi.MAX_PROXIMITY_CHARS_SIZE) :
    pi.calculateNearbyKeyCodes x y primaryKey
      = dedupAppend
          ((primaryKey :: pi.admittedCodes x y primaryKey)
            ++ [ADDITIONAL_PROXIMITY_CHAR_DELIMITER_CODE])
          (pi.additionalProximityChars primaryKey)
        ++ List.replicate
            (pi.MAX_PROXIMITY_CHARS_SIZE - (dedupAppend
              ((primaryKey :: pi.admittedCodes x y primaryKey)
                ++ [ADDITIONAL_PROXIMITY_CHAR_DELIMITER_CODE])
              (pi.additionalProximityChars primaryKey)).length)
            NOT_A_CODE := by
  have hsi : 0 ≤ pi.getStartIndexFromCoordinates x y :=
    startIndex_nonneg_of_tdiv pi x y (Int.tdiv_nonneg hx hcw.le)
      (Int.tdiv_nonneg hy hch.le) hgw
  have hbase : ((primaryKey :: pi.admittedCodes x y primaryKey)
      ++ [ADDITIONAL_PROXIMITY_CHAR_DELIMITER_CODE]).length
      ≤ (dedupAppend
          ((primaryKey :: pi.admittedCodes x y primaryKey)
            ++ [ADDITIONAL_PROXIMITY_CHAR_DELIMITER_CODE])
          (pi.additionalProximityChars primaryKey)).length :=
    dedupAppend_length_le _ _
  have hbaselen : (pi.admittedCodes x y primaryKey).length + 2
      < pi.MAX_PROXIMITY_CHARS_SIZE := by
    simp only [List.length_append, List.length_cons, List.length_nil] at hbase
    omega
  have hlt : ([primaryKey] : List Int).length
      + ((pi.cellCodesAt (pi.getStartIndexFromCoordinates x y)
          (List.range pi.MAX_PROXIMITY_CHARS_SIZE)).filter
          (fun c => pi.admitsCode x y primaryKey c)).length
      < pi.MAX_PROXIMITY_CHARS_SIZE := by
    rw [← admittedCodes_eq]
    simp only [List.length_cons, List.length_nil]
    omega
  have hgrid := gridLoop_eq_of_lt pi x y primaryKey (pi.getStartIndexFromCoordinates x y)
    (List.range pi.MAX_PROXIMITY_CHARS_SIZE) [primaryKey] hlt
  rw [← admittedCodes_eq] at hgrid
  have haddlen : 0 < (pi.additionalProximityChars primaryKey).length :=
    List.length_pos.mpr hadd
  have hsing : ([primaryKey] ++ pi.admittedCodes x y primaryKey)
      = primaryKey :: pi.admittedCodes x y primaryKey := List.singleton_append
  have hfull : ¬ pi.MAX_PROXIMITY_CHARS_SIZE
      ≤ (([primaryKey] ++ pi.admittedCodes x y primaryKey)
        ++ [ADDITIONAL_PROXIMITY_CHAR_DELIMITER_CODE]).length := by
    simp only [List.length_append, List.length_cons, List.length_nil]
    omega
  have hprod : pi.producedCodes x y primaryKey
      = (dedupAppend
          ((primaryKey :: pi.admittedCodes x y primaryKey)
            ++ [ADDITIONAL_PROXIMITY_CHAR_DELIMITER_CODE])
          (pi.additionalProximityChars primaryKey), false) := by
    simp only [ProximityInfo.producedCodes]
    rw [if_pos hsi, hgrid]
    simp only [Bool.false_eq_true, if_false, if_pos haddlen]
    rw [if_neg hfull, hsing]
    exact additionalLoop_eq_dedup pi (pi.additionalProximityChars primaryKey) _ hroom
  rw [calculateNearbyKeyCodes_eq, hprod]
  simp only [Bool.false_eq_true, if_false]

theorem calculateNearbyKeyCodes_shape_witness :
    (0 : Int) ≤ 0 ∧ (0 : Int) ≤ 0 ∧
    0 < picAdditional.CELL_WIDTH ∧ 0 < picAdditional.CELL_HEIGHT ∧
    0 ≤ picAdditional.GRID_WIDTH ∧
    picAdditional.additionalProximityChars 97 ≠ [] ∧
    (dedupAppend
        ((97 :: picAdditional.admittedCodes 0 0 97)
          ++ [ADDITIONAL_PROXIMITY_CHAR_DELIMITER_CODE])
        (picAdditional.additionalProximityChars 97)).length
      < picAdditional.MAX_PROXIMITY_CHARS_SIZE ∧
    picAdditional.calculateNearbyKeyCodes 0 0 97
      = dedupAppend
          ((97 :: picAdditional.admittedCodes 0 0 97)
            ++ [ADDITIONAL_PROXIMITY_CHAR_DELIMITER_CODE])
          (picAdditional.additionalProximityChars 97)
        ++ List.replicate
            (picAdditional.MAX_PROXIMITY_CHARS_SIZE - (dedupAppend
              ((97 :: picAdditional.admittedCodes 0 0 97)
                ++ [ADDITIONAL_PROXIMITY_CHAR_DELIMITER_CODE])
              (picAdditional.additionalProximityChars 97)).length)
            NOT_A_CODE :=
  ⟨by decide, by decide, by decide, by decide, by decide, by decide, by decide,
    calculateNearbyKeyCodes_shape picAdditional 0 0 97 (by decide) (by decide)
      (by decide) (by decide) (by decide) (by decide) (by decide)⟩

/-- C10: `calculateNearbyKeyCodes` never rejects negative coordinates
outright; for a small negative x (within one cell width of 0, with y
non-negative) the truncating integer division maps the point to grid column
0, the computed start index agrees with a touch at the keyboard edge and is
non-negative, and the grid cell there is consulted: absent overflow the
output starts with the primary code followed by the admitted codes of that
cell. -/
theorem calculateNearbyKeyCodes_small_negative (pi : ProximityInfo)
    (x y primaryKey : Int) (hcw : 0 < pi.CELL_WIDTH) (hch : 0 < pi.CELL_HEIGHT)
    (hgw : 0 ≤ pi.GRID_WIDTH) (hx1 : -pi.CELL_WIDTH < x) (hx2 : x < 0) (hy : 0 ≤ y) :
    Int.tdiv x pi.CELL_WIDTH = 0 ∧
    pi.getStartIndexFromCoordinates x y = pi.getStartIndexFromCoordinates 0 y ∧
    0 ≤ pi.getStartIndexFromCoordinates x y ∧
    (1 + (pi.admittedCodes x y primaryKey).length ≤ pi.MAX_PROXIMITY_CHARS_SIZE →
      (pi.calculateNearbyKeyCodes x y primaryKey).take
          (1 + (pi.admittedCodes x y primaryKey).length)
        = primaryKey :: pi.admittedCodes x y primaryKey) := by
  have h0 : Int.tdiv x pi.CELL_WIDTH = 0 :=
    tdiv_small_neg_eq_zero x pi.CELL_WIDTH hcw hx1 hx2
  have hsi : 0 ≤ pi.getStartIndexFromCoordinates x y :=
    startIndex_nonneg_of_tdiv pi x y (le_of_eq h0.symm)
      (Int.tdiv_nonneg hy hch.le) hgw
  refine ⟨h0, ?_, hsi, fun hroom => calc_take_admitted pi x y primaryKey hsi hroom⟩
  unfold ProximityInfo.getStartIndexFromCoordinates
  rw [h0, Int.zero_tdiv]

theorem calculateNearbyKeyCodes_small_negative_witness :
    0 < picA.CELL_WIDTH ∧ 0 < picA.CELL_HEIGHT ∧ 0 ≤ picA.GRID_WIDTH ∧
    -picA.CELL_WIDTH < (-1 : Int) ∧ (-1 : Int) < 0 ∧ (0 : Int) ≤ 0 ∧
    (Int.tdiv (-1) picA.CELL_WIDTH = 0 ∧
     picA.getStartIndexFromCoordinates (-1) 0 = picA.getStartIndexFromCoordinates 0 0 ∧
     0 ≤ picA.getStartIndexFromCoordinates (-1) 0 ∧
     (1 + (picA.admittedCodes (-1) 0 97).length ≤ picA.MAX_PROXIMITY_CHARS_SIZE →
       (picA.calculateNearbyKeyCodes (-1) 0 97).take
           (1 + (picA.admittedCodes (-1) 0 97).length)
         = 97 :: picA.admittedCodes (-1) 0 97)) :=
  ⟨by decide, by decide, by decide, by decide, by decide, by decide,
    calculateNearbyKeyCodes_small_negative picA (-1) 0 97 (by decide) (by decide)
      (by decide) (by decide) (by decide) (by decide)⟩
